import Mathlib

/-!
# Verification of the `sib` storage core against its specification

This file gives a shallow embedding, in Lean 4, of the storage core of the
`sib` version-control tool (Go):

* the object model (`Blob`, `Tree` with `TreeEntry`, `Commit`, `Tag`,
  `Signature`, `ObjectType`, `FileMode`, `Hash`) from
  `internal/core/objects`,
* the content-addressable object store (`calculateHash`, `hashToPath`
  checks, `WriteObject`, `ReadObject`, `detectObjectType`,
  `deserializeByType`) from `internal/core/storage`,
* the staging index (`normalizePath`, `isValidMode`, `Add`, `load`) from
  `internal/core/index`.

Byte strings are modelled as `List Nat` (each element `0 ≤ b < 256`).
Go's `encoding/json` behaviour is modelled for exactly the struct shapes
the code serializes and deserializes: compact encoding (the code calls
`SetIndent("", "")` and `SetEscapeHTML(false)`), fields in declaration
order, and — crucially — a Go struct with no exported fields (such as
`Signature` and `TreeEntry`, whose fields are all lower-case) marshals
as the empty JSON object and unmarshals by ignoring every key, yielding
the zero value.  `time.Time` values are modelled at second granularity
in UTC; their JSON form is the quoted RFC 3339 string.

SHA-256 is implemented in full (FIPS 180-4) so that `calculateHash` is
the real digest used by the store.
-/

namespace Sib

/-- Decidable equality for `Except`, so that concrete runs of the
fallible operations can be evaluated inside proofs. -/
instance {ε α : Type} [DecidableEq ε] [DecidableEq α] :
    DecidableEq (Except ε α) := fun x y =>
  match x, y with
  | .ok a, .ok b =>
      if h : a = b then .isTrue (by rw [h])
      else .isFalse (fun hc => h (by injection hc))
  | .error a, .error b =>
      if h : a = b then .isTrue (by rw [h])
      else .isFalse (fun hc => h (by injection hc))
  | .ok _, .error _ => .isFalse (fun hc => Except.noConfusion hc)
  | .error _, .ok _ => .isFalse (fun hc => Except.noConfusion hc)

/-! ## Bytes and strings -/

/-- A byte string: each element is a byte value `0 ≤ b < 256`. -/
abbrev Bytes := List Nat

/-- Bytes of an ASCII string (for ASCII data, UTF-8 bytes coincide with
code points; all concrete data in this development is ASCII). -/
def strB (s : String) : Bytes := s.data.map Char.toNat

/-! ## SHA-256 (FIPS 180-4), as used by Go `crypto/sha256` -/

/-- Truncate to a 32-bit word. -/
def w32 (x : Nat) : Nat := x % 4294967296

/-- Right-rotate of a 32-bit word by `n` bits. -/
def rotr32 (n x : Nat) : Nat := w32 ((x >>> n) ||| (x <<< (32 - n)))

def bigS0 (x : Nat) : Nat := (rotr32 2 x) ^^^ (rotr32 13 x) ^^^ (rotr32 22 x)
def bigS1 (x : Nat) : Nat := (rotr32 6 x) ^^^ (rotr32 11 x) ^^^ (rotr32 25 x)
def smallS0 (x : Nat) : Nat := (rotr32 7 x) ^^^ (rotr32 18 x) ^^^ (x >>> 3)
def smallS1 (x : Nat) : Nat := (rotr32 17 x) ^^^ (rotr32 19 x) ^^^ (x >>> 10)

def chNat (x y z : Nat) : Nat := (x &&& y) ^^^ ((4294967295 - x) &&& z)
def majNat (x y z : Nat) : Nat := (x &&& y) ^^^ (x &&& z) ^^^ (y &&& z)

/-- The 64 SHA-256 round constants. -/
def sha256K : List Nat :=
  [1116352408, 1899447441, 3049323471, 3921009573, 961987163,
   1508970993, 2453635748, 2870763221, 3624381080, 310598401,
   607225278, 1426881987, 1925078388, 2162078206, 2614888103,
   3248222580, 3835390401, 4022224774, 264347078, 604807628,
   770255983, 1249150122, 1555081692, 1996064986, 2554220882,
   2821834349, 2952996808, 3210313671, 3336571891, 3584528711,
   113926993, 338241895, 666307205, 773529912, 1294757372,
   1396182291, 1695183700, 1986661051, 2177026350, 2456956037,
   2730485921, 2820302411, 3259730800, 3345764771, 3516065817,
   3600352804, 4094571909, 275423344, 430227734, 506948616,
   659060556, 883997877, 958139571, 1322822218, 1537002063,
   1747873779, 1955562222, 2024104815, 2227730452, 2361852424,
   2428436474, 2756734187, 3204031479, 3329325298]

/-- The initial SHA-256 hash state. -/
def sha256IV : List Nat :=
  [1779033703, 3144134277, 1013904242, 2773480762,
   1359893119, 2600822924, 528734635, 1541459225]

/-- Big-endian 8-byte encoding of a natural number. -/
def be64 (n : Nat) : Bytes :=
  [(n >>> 56) % 256, (n >>> 48) % 256, (n >>> 40) % 256, (n >>> 32) % 256,
   (n >>> 24) % 256, (n >>> 16) % 256, (n >>> 8) % 256, n % 256]

/-- SHA-256 message padding: append `0x80`, zero bytes up to 56 mod 64,
then the bit length as a big-endian 64-bit integer. -/
def sha256Pad (msg : Bytes) : Bytes :=
  msg ++ (128 :: List.replicate ((119 - msg.length % 64) % 64) 0)
      ++ be64 (8 * msg.length)

/-- Group bytes into 4-byte big-endian 32-bit words. -/
def bytesToWords : Bytes → List Nat
  | b0 :: b1 :: b2 :: b3 :: rest =>
      (((b0 * 256 + b1) * 256 + b2) * 256 + b3) :: bytesToWords rest
  | _ => []

/-- Extend the 16 message words of a block to the 64-word schedule. -/
def sha256Schedule (w16 : List Nat) : List Nat :=
  (List.range 48).foldl
    (fun acc _ =>
      let n := acc.length
      acc ++ [w32 (smallS1 (acc.getD (n - 2) 0) + acc.getD (n - 7) 0 +
                   smallS0 (acc.getD (n - 15) 0) + acc.getD (n - 16) 0)])
    w16

/-- One round of the SHA-256 compression function.  The state is the
8-tuple `[a,b,c,d,e,f,g,h]`; `wk` is the pair of schedule word and round
constant. -/
def sha256Round (st : List Nat) (wk : Nat × Nat) : List Nat :=
  match st with
  | [a, b, c, d, e, f, g, h] =>
      let t1 := w32 (h + bigS1 e + chNat e f g + wk.2 + wk.1)
      let t2 := w32 (bigS0 a + majNat a b c)
      [w32 (t1 + t2), a, b, c, w32 (d + t1), e, f, g]
  | other => other

/-- Compress one 64-byte block into the running hash state. -/
def sha256Block (hstate : List Nat) (block : Bytes) : List Nat :=
  let ws := sha256Schedule (bytesToWords block)
  let final := (ws.zip sha256K).foldl sha256Round hstate
  (hstate.zip final).map (fun p => w32 (p.1 + p.2))

/-- Split a padded message into 64-byte blocks. -/
def chunk64Aux : Nat → Bytes → List Bytes
  | 0, _ => []
  | _, [] => []
  | fuel + 1, a :: t => (a :: t).take 64 :: chunk64Aux fuel ((a :: t).drop 64)

def chunk64 (l : Bytes) : List Bytes := chunk64Aux l.length l

/-- The SHA-256 digest of a byte string, as 32 bytes. -/
def sha256 (msg : Bytes) : Bytes :=
  let finalState := (chunk64 (sha256Pad msg)).foldl sha256Block sha256IV
  finalState.flatMap
    (fun w => [(w >>> 24) % 256, (w >>> 16) % 256, (w >>> 8) % 256, w % 256])

/-- Lowercase hexadecimal digit for a value `0 ≤ n < 16`. -/
def hexChar (n : Nat) : Char :=
  if n < 10 then Char.ofNat (48 + n) else Char.ofNat (87 + n)

/-- Lowercase hexadecimal rendering of a byte string. -/
def toHex (bs : Bytes) : String :=
  String.mk (bs.flatMap (fun b => [hexChar (b / 16), hexChar (b % 16)]))

/-! ## Go `time.Time`, at second granularity in UTC

The repository only ever persists times through `encoding/json`
(RFC 3339) and compares them at second granularity, so a time is
modelled by its Unix second count.  Go's zero `time.Time` is
0001-01-01T00:00:00 UTC, Unix second `-62135596800`; `IsZero` tests for
exactly that instant. -/

structure Time where
  unix : Int
  deriving DecidableEq, Repr

/-- Unix seconds of Go's zero `time.Time` (0001-01-01T00:00:00Z). -/
def timeZeroUnix : Int := -62135596800

/-- Go's zero `time.Time`. -/
def Time.goZero : Time := ⟨timeZeroUnix⟩

/-- Models `time.Time.IsZero`. -/
def Time.IsZero (t : Time) : Bool := t.unix == timeZeroUnix

/-- Civil date (y, m, d) to days since 1970-01-01 (Howard Hinnant's
`days_from_civil`, the algorithm used by all civil-time conversions). -/
def daysFromCivil (y m d : Int) : Int :=
  let y := y - (if m ≤ 2 then 1 else 0)
  let era := (if y ≥ 0 then y else y - 399) / 400
  let yoe := y - era * 400
  let doy := (153 * (m + (if m > 2 then -3 else 9)) + 2) / 5 + d - 1
  let doe := yoe * 365 + yoe / 4 - yoe / 100 + doy
  era * 146097 + doe - 719468

/-- Days since 1970-01-01 to civil date (Hinnant's `civil_from_days`). -/
def civilFromDays (z0 : Int) : Int × Int × Int :=
  let z := z0 + 719468
  let era := (if z ≥ 0 then z else z - 146096) / 146097
  let doe := z - era * 146097
  let yoe := (doe - doe / 1460 + doe / 36524 - doe / 146096) / 365
  let y := yoe + era * 400
  let doy := doe - (365 * yoe + yoe / 4 - yoe / 100)
  let mp := (5 * doy + 2) / 153
  let d := doy - (153 * mp + 2) / 5 + 1
  let m := mp + (if mp < 10 then 3 else -9)
  (y + (if m ≤ 2 then 1 else 0), m, d)

/-- Left-pad the decimal rendering of `n` with zeros to width 2. -/
def pad2 (n : Int) : String :=
  if n < 10 then "0" ++ toString n else toString n

/-- Left-pad the decimal rendering of `n` with zeros to width 4. -/
def pad4 (n : Int) : String :=
  if n < 10 then "000" ++ toString n
  else if n < 100 then "00" ++ toString n
  else if n < 1000 then "0" ++ toString n
  else toString n

/-- RFC 3339 rendering of a time, as produced by Go
`time.Time.MarshalJSON` for a UTC time with no sub-second part
(e.g. `1970-01-01T00:03:20Z`). -/
def rfc3339 (t : Time) : String :=
  let days := Int.fdiv t.unix 86400
  let sod := (Int.emod t.unix 86400).toNat
  let c := civilFromDays days
  pad4 c.1 ++ "-" ++ pad2 c.2.1 ++ "-" ++ pad2 c.2.2 ++ "T" ++
    pad2 (sod / 3600) ++ ":" ++ pad2 (sod % 3600 / 60) ++ ":" ++
    pad2 (sod % 60) ++ "Z"

/-! ## JSON, as produced and consumed by Go `encoding/json`

The code always encodes with `SetEscapeHTML(false)` and
`SetIndent("", "")` (compact output) and then trims the trailing
newline, so the encoder below produces exactly the compact encoding,
struct fields in declaration order.  The decoder is a small recursive
descent JSON reader: numbers are modelled as integers (all numeric
fields in the repository are `int`/`int64`) and string escapes cover the
sequences the encoder can produce. -/

/-- Byte is ASCII space, tab, newline or carriage return. -/
def isWsB (b : Nat) : Bool := b == 32 || b == 9 || b == 10 || b == 13

/-- Byte is an ASCII decimal digit. -/
def isDigitB (b : Nat) : Bool := 48 ≤ b && b ≤ 57

/-- Decode a byte list as a string, one character per byte (inverse of
`strB` on ASCII data). -/
def bytesToStr (bs : Bytes) : String := String.mk (bs.map Char.ofNat)

/-- JSON escaping of a string's bytes, matching Go `encoding/json` with
HTML escaping disabled: `"` and `\` are backslash-escaped, newline, tab
and carriage return use their short escapes, other control bytes use
`\u00XX`. -/
def jsonEscape : Bytes → Bytes
  | [] => []
  | b :: rest =>
      (if b == 34 then [92, 34]
       else if b == 92 then [92, 92]
       else if b == 10 then [92, 110]
       else if b == 13 then [92, 114]
       else if b == 9 then [92, 116]
       else if b < 32 then
         [92, 117, 48, 48, (hexChar (b / 16)).toNat, (hexChar (b % 16)).toNat]
       else [b]) ++ jsonEscape rest

/-- A quoted, escaped JSON string. -/
def jsonStr (s : String) : Bytes := [34] ++ jsonEscape (strB s) ++ [34]

/-- Decimal rendering of an integer, as bytes. -/
def intB (n : Int) : Bytes := strB (toString n)

/-- A JSON array from already-encoded elements. -/
def jsonArr (xs : List Bytes) : Bytes := [91] ++ (List.intercalate [44] xs) ++ [93]

/-- Parsed JSON values.  Numbers are integers (see module comment). -/
inductive Jval where
  | jnull : Jval
  | jbool : Bool → Jval
  | jnum : Int → Jval
  | jstr : Bytes → Jval
  | jarr : List Jval → Jval
  | jobj : List (Bytes × Jval) → Jval

/-- Drop leading JSON whitespace. -/
def skipWs : Bytes → Bytes
  | [] => []
  | b :: rest => if isWsB b then skipWs rest else b :: rest

/-- Parse the body of a JSON string after the opening quote; returns the
decoded bytes and the remaining input after the closing quote. -/
def parseStrBody : Bytes → Except String (Bytes × Bytes)
  | [] => .error "unexpected end of JSON string"
  | 34 :: rest => .ok ([], rest)
  | 92 :: 34 :: rest => (parseStrBody rest).map (fun p => (34 :: p.1, p.2))
  | 92 :: 92 :: rest => (parseStrBody rest).map (fun p => (92 :: p.1, p.2))
  | 92 :: 47 :: rest => (parseStrBody rest).map (fun p => (47 :: p.1, p.2))
  | 92 :: 110 :: rest => (parseStrBody rest).map (fun p => (10 :: p.1, p.2))
  | 92 :: 114 :: rest => (parseStrBody rest).map (fun p => (13 :: p.1, p.2))
  | 92 :: 116 :: rest => (parseStrBody rest).map (fun p => (9 :: p.1, p.2))
  | 92 :: 98 :: rest => (parseStrBody rest).map (fun p => (8 :: p.1, p.2))
  | 92 :: 102 :: rest => (parseStrBody rest).map (fun p => (12 :: p.1, p.2))
  | 92 :: _ :: _ => .error "unsupported escape in JSON string"
  | 92 :: [] => .error "unexpected end of JSON string"
  | b :: rest => (parseStrBody rest).map (fun p => (b :: p.1, p.2))

/-- Parse the digits of a natural number; fails on empty digit runs. -/
def parseDigits (acc : Nat) : Bytes → (Nat × Bytes)
  | [] => (acc, [])
  | b :: rest =>
      if isDigitB b then parseDigits (acc * 10 + (b - 48)) rest
      else (acc, b :: rest)

/-- Parse a JSON integer (optional minus sign, digit run); fails if a
fraction or exponent follows, since all numeric fields in the code are
integers. -/
def parseIntB : Bytes → Except String (Int × Bytes)
  | 45 :: b :: rest =>
      if isDigitB b then
        let p := parseDigits (b - 48) rest
        match p.2 with
        | 46 :: _ => .error "non-integer JSON number"
        | 101 :: _ => .error "non-integer JSON number"
        | 69 :: _ => .error "non-integer JSON number"
        | _ => .ok (-(p.1 : Int), p.2)
      else .error "malformed JSON number"
  | b :: rest =>
      if isDigitB b then
        let p := parseDigits (b - 48) rest
        match p.2 with
        | 46 :: _ => .error "non-integer JSON number"
        | 101 :: _ => .error "non-integer JSON number"
        | 69 :: _ => .error "non-integer JSON number"
        | _ => .ok ((p.1 : Int), p.2)
      else .error "malformed JSON number"
  | [] => .error "unexpected end of JSON number"

mutual

/-- Parse one JSON value; `fuel` bounds recursion depth. -/
def parseJval : Nat → Bytes → Except String (Jval × Bytes)
  | 0, _ => .error "JSON nesting too deep"
  | fuel + 1, input =>
    match skipWs input with
    | [] => .error "unexpected end of JSON input"
    | 110 :: 117 :: 108 :: 108 :: rest => .ok (.jnull, rest)
    | 116 :: 114 :: 117 :: 101 :: rest => .ok (.jbool true, rest)
    | 102 :: 97 :: 108 :: 115 :: 101 :: rest => .ok (.jbool false, rest)
    | 34 :: rest => (parseStrBody rest).map (fun p => (.jstr p.1, p.2))
    | 91 :: rest =>
        (match skipWs rest with
         | 93 :: rest2 => .ok (.jarr [], rest2)
         | other =>
           match parseJval fuel other with
           | .error e => .error e
           | .ok (v, rest2) =>
             (parseArrRest fuel rest2).map (fun p => (.jarr (v :: p.1), p.2)))
    | 123 :: rest =>
        (match skipWs rest with
         | 125 :: rest2 => .ok (.jobj [], rest2)
         | other =>
           match parseObjField fuel other with
           | .error e => .error e
           | .ok (kv, rest2) =>
             (parseObjRest fuel rest2).map (fun p => (.jobj (kv :: p.1), p.2)))
    | other => (parseIntB other).map (fun p => (.jnum p.1, p.2))

/-- Parse `, v , v … ]` after the first array element. -/
def parseArrRest : Nat → Bytes → Except String (List Jval × Bytes)
  | 0, _ => .error "JSON nesting too deep"
  | fuel + 1, input =>
    match skipWs input with
    | 93 :: rest => .ok ([], rest)
    | 44 :: rest =>
        (match parseJval fuel rest with
         | .error e => .error e
         | .ok (v, rest2) =>
           (parseArrRest fuel rest2).map (fun p => (v :: p.1, p.2)))
    | _ => .error "expected comma or closing bracket in JSON array"

/-- Parse one `"key": value` object field. -/
def parseObjField : Nat → Bytes → Except String ((Bytes × Jval) × Bytes)
  | 0, _ => .error "JSON nesting too deep"
  | fuel + 1, input =>
    match skipWs input with
    | 34 :: rest =>
        (match parseStrBody rest with
         | .error e => .error e
         | .ok (key, rest2) =>
           match skipWs rest2 with
           | 58 :: rest3 =>
               (parseJval fuel rest3).map (fun p => ((key, p.1), p.2))
           | _ => .error "expected colon in JSON object")
    | _ => .error "expected string key in JSON object"

/-- Parse `, "k": v … \x7d` after the first object field. -/
def parseObjRest : Nat → Bytes → Except String (List (Bytes × Jval) × Bytes)
  | 0, _ => .error "JSON nesting too deep"
  | fuel + 1, input =>
    match skipWs input with
    | 125 :: rest => .ok ([], rest)
    | 44 :: rest =>
        (match parseObjField fuel rest with
         | .error e => .error e
         | .ok (kv, rest2) =>
           (parseObjRest fuel rest2).map (fun p => (kv :: p.1, p.2)))
    | _ => .error "expected comma or closing brace in JSON object"

end

/-- Parse a complete JSON document: one value, with only trailing
whitespace allowed, as `json.Unmarshal` requires. -/
def jsonParse (data : Bytes) : Except String Jval :=
  match parseJval (data.length + 1) data with
  | .error e => .error e
  | .ok (v, rest) =>
      match skipWs rest with
      | [] => .ok v
      | _ => .error "trailing data after JSON value"

/-- Look up a field of a parsed JSON object by (ASCII) name. -/
def jlookup (fields : List (Bytes × Jval)) (key : String) : Option Jval :=
  (fields.find? (fun kv => kv.1 == strB key)).map (·.2)

/-- Decode a JSON field into a Go `string` field: a missing field or
`null` leaves the zero value `""`; a string decodes; anything else is an
unmarshalling type error. -/
def getStrField (fields : List (Bytes × Jval)) (key : String) :
    Except String String :=
  match jlookup fields key with
  | none => .ok ""
  | some .jnull => .ok ""
  | some (.jstr s) => .ok (bytesToStr s)
  | some _ => .error "cannot unmarshal into string field"

/-- Decode a JSON field into a Go integer field (zero if absent). -/
def getIntField (fields : List (Bytes × Jval)) (key : String) :
    Except String Int :=
  match jlookup fields key with
  | none => .ok 0
  | some .jnull => .ok 0
  | some (.jnum n) => .ok n
  | some _ => .error "cannot unmarshal into integer field"

/-! ## Object model (`internal/core/objects`) -/

/-- Go `objects.Hash` is a defined string type: a 64-character lowercase
hex SHA-256 digest, with `""` meaning "unset". -/
abbrev Hash := String

/-- Models `Hash.IsEmpty`. -/
def Hash.IsEmpty (h : Hash) : Bool := h == ""

/-- Go `objects.ObjectType` is a defined string type. -/
abbrev ObjectType := String

def BlobObject : ObjectType := "blob"
def TreeObject : ObjectType := "tree"
def CommitObject : ObjectType := "commit"
def TagObject : ObjectType := "tag"

/-- Models `ObjectType.Validate`: a switch over the four object kinds. -/
def ObjectType.Validate (ot : ObjectType) : Except String Unit :=
  if ot == BlobObject || ot == TreeObject || ot == CommitObject
     || ot == TagObject then .ok ()
  else .error "invalid object type"

/-- Go `objects.FileMode` is a defined string type. -/
abbrev FileMode := String

def FileModeRegular : FileMode := "100644"
def FileModeExec : FileMode := "100755"
def FileModeDir : FileMode := "40000"
def FileModeSymlink : FileMode := "120000"

/-- Models `FileMode.Validate`: a switch over the four mode constants. -/
def FileMode.Validate (fm : FileMode) : Except String Unit :=
  if fm == FileModeRegular || fm == FileModeExec || fm == FileModeDir
     || fm == FileModeSymlink then .ok ()
  else .error "invalid file mode"

/-- Go `objects.Signature`: all three fields are unexported. -/
structure Signature where
  name : String
  email : String
  when : Time
  deriving DecidableEq, Repr

/-- Models `NewSignature`, which validates and constructs. -/
def NewSignature (name email : String) (whenT : Time) :
    Except String Signature :=
  if name == "" then .error "signature name cannot be empty"
  else if email == "" then .error "signature email cannot be empty"
  else if Time.IsZero whenT then .error "signature time cannot be zero"
  else .ok ⟨name, email, whenT⟩

/-- Models `Signature.Validate`: the same three checks. -/
def Signature.Validate (s : Signature) : Except String Unit :=
  if s.name == "" then .error "signature name cannot be empty"
  else if s.email == "" then .error "signature email cannot be empty"
  else if Time.IsZero s.when then .error "signature time cannot be zero"
  else .ok ()

/-- Go marshals a struct with no exported fields — such as `Signature` —
as the empty JSON object. -/
def encodeSignatureGo (_ : Signature) : Bytes := [123, 125]

/-- ASCII whitespace as trimmed by `strings.TrimSpace` (the Unicode
whitespace beyond ASCII is not reachable from the data considered). -/
def isSpaceChar (c : Char) : Bool :=
  c.toNat == 32 || c.toNat == 9 || c.toNat == 10 ||
  c.toNat == 13 || c.toNat == 11 || c.toNat == 12

/-- Models `strings.TrimSpace`. -/
def goTrimSpace (s : String) : String :=
  String.mk (((s.data.dropWhile isSpaceChar).reverse.dropWhile isSpaceChar).reverse)

/-- Git-style object header `"<kind> <len>"` followed by a NUL byte,
as built by every `Serialize` (`fmt.Sprintf("%s %d", type, len)`). -/
def objHeader (kind : String) (n : Nat) : Bytes :=
  strB (kind ++ " " ++ toString n) ++ [0]

/-! ### Blob (`blob.go`) -/

/-- Go `objects.Blob`.  The content is `Option Bytes` to distinguish a
nil slice (`NewBlob(nil)`) from an empty non-nil slice. -/
structure Blob where
  content : Option Bytes
  size : Int
  hash : Hash
  deriving DecidableEq, Repr

/-- Models `NewBlob`: `size` is `int64(len(content))` and `len(nil) = 0`. -/
def NewBlob (content : Option Bytes) : Blob :=
  ⟨content, ((content.getD []).length : Int), ""⟩

/-- Models `Blob.Serialize`: checks negative size, nil content and a
size/content mismatch, then produces `"blob <size>\0" + content`. -/
def Blob.Serialize (b : Blob) : Except String Bytes :=
  if b.size < 0 then .error "invalid blob size"
  else
    match b.content with
    | none => .error "blob content is nil"
    | some c =>
        if b.size ≠ (c.length : Int) then .error "size mismatch"
        else .ok (strB ("blob " ++ toString b.size) ++ [0] ++ c)

/-! ### Tree (`tree.go`) -/

/-- Go `objects.TreeEntry`: all four fields are unexported. -/
structure TreeEntry where
  mode : FileMode
  name : String
  hash : Hash
  objType : ObjectType
  deriving DecidableEq, Repr

/-- The zero `TreeEntry`, produced when `json.Unmarshal` decodes any
JSON object into a struct with no exported fields. -/
def TreeEntry.zero : TreeEntry := ⟨"", "", "", ""⟩

/-- Go marshals `TreeEntry` (no exported fields) as the empty JSON
object. -/
def encodeTreeEntryGo (_ : TreeEntry) : Bytes := [123, 125]

/-- Go `objects.Tree`. -/
structure Tree where
  entries : List TreeEntry
  hash : Hash
  deriving DecidableEq, Repr

/-- Models `NewTree`. -/
def NewTree : Tree := ⟨[], ""⟩

/-- Lexicographic strict order on character lists, by code point
(Go's `<` on strings compares bytes; on ASCII data the two agree). -/
def charListLt : List Char → List Char → Bool
  | [], [] => false
  | [], _ :: _ => true
  | _ :: _, [] => false
  | a :: as, b :: bs =>
      if a.toNat < b.toNat then true
      else if b.toNat < a.toNat then false
      else charListLt as bs

/-- Go's `<` on strings. -/
def strLtB (a b : String) : Bool := charListLt a.data b.data

/-- The ordering `sortEntries` establishes: `a` is not after `b`,
i.e. `¬ (b.name < a.name)` with Go's string comparison. -/
def entryLE (a b : TreeEntry) : Prop := strLtB b.name a.name = false

instance : DecidableRel entryLE :=
  fun a b => inferInstanceAs (Decidable (strLtB b.name a.name = false))

/-- Models `Tree.sortEntries`: `sort.Slice` by `name <`; on lists whose
names are unique (the only lists the code sorts) every comparison sort
agrees, so insertion sort by the reflexive closure of `name <` is
used. -/
def Tree.sortEntries (l : List TreeEntry) : List TreeEntry :=
  l.insertionSort entryLE

/-- Replace the first entry whose name matches, as `AddEntry`'s loop
does; `none` if no entry matches. -/
def replaceByName : List TreeEntry → TreeEntry → Option (List TreeEntry)
  | [], _ => none
  | x :: xs, e =>
      if x.name = e.name then some (e :: xs)
      else (replaceByName xs e).map (x :: ·)

/-- Models `Tree.AddEntry`: update the first entry with a matching name
in place, otherwise append; re-sort either way.  (The Go method always
returns `nil`.) -/
def Tree.AddEntry (t : Tree) (e : TreeEntry) : Tree :=
  match replaceByName t.entries e with
  | some l => { t with entries := Tree.sortEntries l }
  | none => { t with entries := Tree.sortEntries (t.entries ++ [e]) }

/-- Models `Tree.Serialize`: an `EmptyTree` error on zero entries,
otherwise the compact JSON `{"type":"tree","entries":[…]}` wrapped in
the object header.  Each entry marshals as `{}` (no exported fields). -/
def Tree.Serialize (t : Tree) : Except String Bytes :=
  if t.entries.isEmpty then .error "tree cannot be empty"
  else
    let payload :=
      [123] ++ strB "\"type\":" ++ jsonStr "tree" ++ [44] ++
      strB "\"entries\":" ++ jsonArr (t.entries.map encodeTreeEntryGo) ++ [125]
    .ok (objHeader "tree" payload.length ++ payload)

/-- The suffix after the first NUL byte, if any (the header/payload
split every deserializer performs). -/
def afterFirstNul : Bytes → Option Bytes
  | [] => none
  | 0 :: rest => some rest
  | _ :: rest => afterFirstNul rest

/-- Decode the tree JSON document `{type, entries}`.  Unmarshalling a
JSON object (or `null`) into `TreeEntry` ignores every key and yields
the zero entry. -/
def decodeTreeDoc (v : Jval) : Except String (String × List TreeEntry) :=
  match v with
  | .jobj fields => do
      let ty ← getStrField fields "type"
      let es ←
        match jlookup fields "entries" with
        | none => .ok []
        | some .jnull => .ok []
        | some (.jarr xs) =>
            xs.mapM (fun x =>
              match x with
              | .jobj _ => .ok TreeEntry.zero
              | .jnull => .ok TreeEntry.zero
              | _ => .error "cannot unmarshal into TreeEntry")
        | some _ => .error "cannot unmarshal into entries field"
      pure (ty, es)
  | _ => .error "cannot unmarshal into tree document"

/-- Models `DeserializeTree`: split at the first NUL, parse the JSON
payload, check the embedded type tag, then `AddEntry` every decoded
entry into a fresh tree. -/
def DeserializeTree (data : Bytes) : Except String Tree :=
  match afterFirstNul data with
  | none => .error "malformed tree data: no null byte separator"
  | some payload =>
      match jsonParse payload with
      | .error e => .error e
      | .ok v =>
          match decodeTreeDoc v with
          | .error e => .error e
          | .ok (ty, es) =>
              if ty ≠ TreeObject then .error "invalid object type"
              else .ok (es.foldl Tree.AddEntry NewTree)

/-! ### Tag (`tag.go`) -/

/-- Go `objects.Tag`. -/
structure Tag where
  object : Hash
  objType : ObjectType
  tagName : String
  tagger : Signature
  message : String
  hash : Hash
  deriving DecidableEq, Repr

/-- The compact JSON body of `Tag.Serialize`: the `serializableTag`
struct (fields `type, object, objType, tag, tagger, message` in
declaration order).  The `tagger` field has type `Signature`, which
marshals as the empty JSON object. -/
def tagPayload (t : Tag) : Bytes :=
  [123] ++ strB "\"type\":" ++ jsonStr "tag" ++ [44] ++
  strB "\"object\":" ++ jsonStr t.object ++ [44] ++
  strB "\"objType\":" ++ jsonStr t.objType ++ [44] ++
  strB "\"tag\":" ++ jsonStr t.tagName ++ [44] ++
  strB "\"tagger\":" ++ encodeSignatureGo t.tagger ++ [44] ++
  strB "\"message\":" ++ jsonStr t.message ++ [125]

/-- Models `Tag.Serialize` (see `tagPayload` for the JSON body). -/
def Tag.Serialize (t : Tag) : Except String Bytes :=
  .ok (objHeader "tag" (tagPayload t).length ++ tagPayload t)

/-! ### Commit (`commit.go`, the active, uncommented implementation) -/

/-- Go `objects.Commit`. -/
structure Commit where
  tree : Hash
  parents : List Hash
  author : Signature
  committer : Signature
  message : String
  hash : Hash
  deriving DecidableEq, Repr

/-- Models `NewCommit`: validates the tree hash, both signatures and a
non-blank message, and stores the trimmed message. -/
def NewCommit (tree : Hash) (parents : List Hash)
    (author committer : Signature) (message : String) :
    Except String Commit :=
  if Hash.IsEmpty tree then .error "commit tree cannot be empty"
  else
    match Signature.Validate author with
    | .error e => .error e
    | .ok _ =>
      match Signature.Validate committer with
      | .error e => .error e
      | .ok _ =>
        if goTrimSpace message == "" then .error "commit message cannot be empty"
        else .ok ⟨tree, parents, author, committer, goTrimSpace message, ""⟩

/-- Models `Commit.IsMerge`. -/
def Commit.IsMerge (c : Commit) : Bool := c.parents.length ≥ 2

/-- Models `Commit.IsRoot`. -/
def Commit.IsRoot (c : Commit) : Bool := c.parents.length == 0

/-- Go `signatureJSON`: the exported mirror of `Signature` used by the
active commit serialization (fields `name`, `email`, `when`). -/
structure SignatureJSON where
  name : String
  email : String
  when : Time
  deriving DecidableEq, Repr

/-- Models `Signature.toJSONSignature`. -/
def toJSONSignature (s : Signature) : SignatureJSON := ⟨s.name, s.email, s.when⟩

/-- Models `fromJSONSignature`: delegates to `NewSignature`. -/
def fromJSONSignature (sj : SignatureJSON) : Except String Signature :=
  NewSignature sj.name sj.email sj.when

/-- The zero `signatureJSON` (all JSON fields absent). -/
def SignatureJSON.zero : SignatureJSON := ⟨"", "", Time.goZero⟩

/-- Go `commitJSON`: the serialization mirror of `Commit`
(`type, tree, parents(omitempty), author, committer, message,
timestamp`). -/
structure CommitJSON where
  type : ObjectType
  tree : Hash
  parents : List Hash
  author : SignatureJSON
  committer : SignatureJSON
  message : String
  timestamp : Int
  deriving DecidableEq, Repr

/-- Compact JSON encoding of `signatureJSON`; the `when` field is the
quoted RFC 3339 time. -/
def encodeSignatureJSON (sj : SignatureJSON) : Bytes :=
  [123] ++ strB "\"name\":" ++ jsonStr sj.name ++ [44] ++
  strB "\"email\":" ++ jsonStr sj.email ++ [44] ++
  strB "\"when\":" ++ [34] ++ strB (rfc3339 sj.when) ++ [34] ++ [125]

/-- Compact JSON encoding of `commitJSON`; `parents` carries
`omitempty`, so an empty parent list is omitted entirely. -/
def encodeCommitJSON (cj : CommitJSON) : Bytes :=
  [123] ++ strB "\"type\":" ++ jsonStr cj.type ++ [44] ++
  strB "\"tree\":" ++ jsonStr cj.tree ++
  (if cj.parents.isEmpty then []
   else [44] ++ strB "\"parents\":" ++ jsonArr (cj.parents.map jsonStr)) ++
  [44] ++ strB "\"author\":" ++ encodeSignatureJSON cj.author ++
  [44] ++ strB "\"committer\":" ++ encodeSignatureJSON cj.committer ++
  [44] ++ strB "\"message\":" ++ jsonStr cj.message ++
  [44] ++ strB "\"timestamp\":" ++ intB cj.timestamp ++ [125]

/-- The `commitJSON` value `Commit.Serialize` builds: both signatures in
full, and `Timestamp` is the author's Unix time. -/
def commitJSONof (c : Commit) : CommitJSON :=
  ⟨CommitObject, c.tree, c.parents, toJSONSignature c.author,
   toJSONSignature c.committer, c.message, (c.author.when).unix⟩

/-- Models `Commit.Serialize`: compact JSON of `commitJSONof c` wrapped
in the `"commit <len>\0"` header. -/
def Commit.Serialize (c : Commit) : Except String Bytes :=
  let payload := encodeCommitJSON (commitJSONof c)
  .ok (objHeader "commit" payload.length ++ payload)

/-- Decode a JSON field into a Go `time.Time` field: absent or `null`
leaves the zero time, a string must parse as RFC 3339. -/
def parseRFC3339 (s : Bytes) : Except String Time :=
  match s with
  | [y3, y2, y1, y0, 45, mo1, mo0, 45, d1, d0, 84,
     h1, h0, 58, mi1, mi0, 58, s1, s0, 90] =>
      if [y3, y2, y1, y0, mo1, mo0, d1, d0, h1, h0, mi1, mi0, s1, s0].all isDigitB
      then
        let y : Int := ((y3 - 48) * 1000 + (y2 - 48) * 100 + (y1 - 48) * 10 + (y0 - 48) : Nat)
        let mo : Int := ((mo1 - 48) * 10 + (mo0 - 48) : Nat)
        let d : Int := ((d1 - 48) * 10 + (d0 - 48) : Nat)
        let hh : Int := ((h1 - 48) * 10 + (h0 - 48) : Nat)
        let mi : Int := ((mi1 - 48) * 10 + (mi0 - 48) : Nat)
        let ss : Int := ((s1 - 48) * 10 + (s0 - 48) : Nat)
        if 1 ≤ mo && mo ≤ 12 && 1 ≤ d && d ≤ 31 && hh < 24 && mi < 60 && ss < 60
        then .ok ⟨daysFromCivil y mo d * 86400 + hh * 3600 + mi * 60 + ss⟩
        else .error "parsing time: value out of range"
      else .error "parsing time: malformed RFC 3339 string"
  | _ => .error "parsing time: malformed RFC 3339 string"

/-- Decode a JSON field into a `time.Time` struct field. -/
def getTimeField (fields : List (Bytes × Jval)) (key : String) :
    Except String Time :=
  match jlookup fields key with
  | none => .ok Time.goZero
  | some .jnull => .ok Time.goZero
  | some (.jstr s) => parseRFC3339 s
  | some _ => .error "cannot unmarshal into time field"

/-- Decode a JSON value into `signatureJSON` (absent fields → zero). -/
def decodeSignatureJSON (v : Jval) : Except String SignatureJSON :=
  match v with
  | .jobj fields => do
      let n ← getStrField fields "name"
      let e ← getStrField fields "email"
      let w ← getTimeField fields "when"
      pure ⟨n, e, w⟩
  | .jnull => .ok SignatureJSON.zero
  | _ => .error "cannot unmarshal into signature field"

/-- Decode a JSON field into `[]Hash` (absent or `null` → nil). -/
def getHashListField (fields : List (Bytes × Jval)) (key : String) :
    Except String (List Hash) :=
  match jlookup fields key with
  | none => .ok []
  | some .jnull => .ok []
  | some (.jarr xs) =>
      xs.mapM (fun x =>
        match x with
        | .jstr s => .ok (bytesToStr s)
        | .jnull => .ok ""
        | _ => .error "cannot unmarshal into hash list")
  | some _ => .error "cannot unmarshal into hash list"

/-- Decode the commit JSON payload into `commitJSON`. -/
def decodeCommitJSON (v : Jval) : Except String CommitJSON :=
  match v with
  | .jobj fields => do
      let ty ← getStrField fields "type"
      let tr ← getStrField fields "tree"
      let ps ← getHashListField fields "parents"
      let au ←
        match jlookup fields "author" with
        | none => .ok SignatureJSON.zero
        | some x => decodeSignatureJSON x
      let co ←
        match jlookup fields "committer" with
        | none => .ok SignatureJSON.zero
        | some x => decodeSignatureJSON x
      let msg ← getStrField fields "message"
      let ts ← getIntField fields "timestamp"
      pure ⟨ty, tr, ps, au, co, msg, ts⟩
  | _ => .error "cannot unmarshal into commit document"

/-- The parse stage of `DeserializeCommit`: the payload after the first
NUL, parsed and decoded into `commitJSON`. -/
def decodeCommitPayload (data : Bytes) : Except String CommitJSON :=
  match afterFirstNul data with
  | none => .error "invalid commit data format"
  | some payload =>
      match jsonParse payload with
      | .error e => .error e
      | .ok v => decodeCommitJSON v

/-- Models `DeserializeCommit`: split/parse/decode, check the type tag,
rebuild both signatures from their own persisted fields via
`fromJSONSignature`, then validate through `NewCommit`.  The decoded
`timestamp` field is not used. -/
def DeserializeCommit (data : Bytes) : Except String Commit :=
  match decodeCommitPayload data with
  | .error e => .error e
  | .ok cj =>
      if cj.type ≠ CommitObject then .error "invalid object type"
      else
        match fromJSONSignature cj.author with
        | .error e => .error e
        | .ok author =>
          match fromJSONSignature cj.committer with
          | .error e => .error e
          | .ok committer =>
            NewCommit cj.tree cj.parents author committer cj.message

/-! ## Object store (`internal/core/storage`)

The filesystem, compression and path-joining collaborators are external
capability contracts (spec §1, §6): `CompressZstd`/`DecompressZstd` are
inverse, and a successful read returns exactly the bytes a successful
write stored.  The store is therefore modelled on the decompressed byte
string directly: `writeObject` produces the bytes that the object's
file will decompress to, and `readObjectData h data` is `ReadObject`
applied to a hash `h` whose file decompresses to `data`. -/

/-- The closed union of the four object kinds, standing for the Go
`Serializable` interface as the store uses it. -/
inductive Obj where
  | blob : Blob → Obj
  | tree : Tree → Obj
  | commit : Commit → Obj
  | tag : Tag → Obj
  deriving DecidableEq, Repr

/-- Dispatch of the `Serialize` method. -/
def Obj.Serialize : Obj → Except String Bytes
  | .blob b => b.Serialize
  | .tree t => t.Serialize
  | .commit c => c.Serialize
  | .tag t => t.Serialize

/-- Dispatch of the `Type` method. -/
def Obj.Type : Obj → ObjectType
  | .blob _ => BlobObject
  | .tree _ => TreeObject
  | .commit _ => CommitObject
  | .tag _ => TagObject

/-- Dispatch of the `SetHash` method (all four kinds are `Hashable`). -/
def Obj.SetHash : Obj → Hash → Obj
  | .blob b, h => .blob { b with hash := h }
  | .tree t, h => .tree { t with hash := h }
  | .commit c, h => .commit { c with hash := h }
  | .tag t, h => .tag { t with hash := h }

/-- Models `ObjectStore.calculateHash`: the lowercase-hex SHA-256
digest of the data (`fmt.Sprintf("%x", sha256.Sum256(data))`). -/
def calculateHash (data : Bytes) : Hash := toHex (sha256 data)

/-- The prefix before the first NUL byte, if any. -/
def beforeFirstNul : Bytes → Option Bytes
  | [] => none
  | 0 :: _ => some []
  | b :: rest => (beforeFirstNul rest).map (b :: ·)

/-- Models `fmt.Sscanf(header, "%s %d", …)`: a whitespace-delimited
token followed by a decimal integer (leading whitespace skipped before
each verb). -/
def parseHeader (header : Bytes) : Except String (String × Int) :=
  let rest := header.dropWhile isWsB
  let tok := rest.takeWhile (fun b => !isWsB b)
  if tok.isEmpty then .error "failed to parse object header"
  else
    match parseIntB ((rest.drop tok.length).dropWhile isWsB) with
    | .error _ => .error "failed to parse object header"
    | .ok (n, _) => .ok (bytesToStr tok, n)

/-- Models `ObjectStore.detectObjectType`: find the NUL separator,
parse the `"<kind> <length>"` header, and validate the kind. -/
def detectObjectType (data : Bytes) : Except String ObjectType :=
  match beforeFirstNul data with
  | none => .error "object data malformed: no null byte separator found"
  | some header =>
      match parseHeader header with
      | .error e => .error e
      | .ok (ty, _) =>
          match ObjectType.Validate ty with
          | .error e => .error e
          | .ok _ => .ok ty

/-- Models `ObjectStore.deserializeByType`: dispatch on the detected
kind; blob content is the raw bytes after the NUL, tree and commit go
through their deserializers, tag is unimplemented. -/
def deserializeByType (ty : ObjectType) (data : Bytes) : Except String Obj :=
  if ty = BlobObject then
    match afterFirstNul data with
    | some c => .ok (.blob (NewBlob (some c)))
    | none => .error "malformed blob data"
  else if ty = TreeObject then (DeserializeTree data).map .tree
  else if ty = CommitObject then (DeserializeCommit data).map .commit
  else if ty = TagObject then .error "tag deserialization not implemented yet"
  else .error "unsupported object type"

/-- Models `ObjectStore.ReadObject` for a hash `h` whose object file
decompresses to `data`: reject an empty hash, reject a hash shorter
than two characters (`hashToPath`), recompute the digest over the
decompressed bytes and fail on mismatch, then detect the kind,
deserialize, and assign the hash into the result. -/
def readObjectData (h : Hash) (data : Bytes) : Except String Obj :=
  if Hash.IsEmpty h then .error "hash cannot be empty"
  else if h.length < 2 then .error "hash too short"
  else if calculateHash data ≠ h then .error "object integrity check failed"
  else
    match detectObjectType data with
    | .error e => .error e
    | .ok ty =>
        match deserializeByType ty data with
        | .error e => .error e
        | .ok obj => .ok (obj.SetHash h)

/-- Models `ObjectStore.WriteObject`: serialize, hash the exact
serialized bytes, check the hash maps to a path, and return the hash
together with the bytes the stored file will decompress to. -/
def writeObject (o : Obj) : Except String (Hash × Bytes) :=
  match o.Serialize with
  | .error e => .error e
  | .ok data =>
      let h := calculateHash data
      if h.length < 2 then .error "hash too short"
      else .ok (h, data)

/-! ## Index (`internal/core/index`)

Paths are modelled with POSIX semantics (`filepath.Clean` with `/` as
the only separator, `filepath.ToSlash` the identity), matching the
platform this tool targets; on Windows `filepath.Clean` would also
treat `\` as a separator. -/

/-- Split a character list into `/`-separated segments. -/
def splitSlash : List Char → List (List Char)
  | [] => [[]]
  | c :: rest =>
      if c = '/' then [] :: splitSlash rest
      else
        match splitSlash rest with
        | s :: ss => (c :: s) :: ss
        | [] => [[c]]

/-- One step of lexical path processing: skip empty and `.` segments,
resolve `..` against the (reversed) stack. -/
def cleanStep (rooted : Bool) (st : List (List Char)) (seg : List Char) :
    List (List Char) :=
  if seg = [] ∨ seg = ['.'] then st
  else if seg = ['.', '.'] then
    match st with
    | x :: xs => if x = ['.', '.'] then seg :: st else xs
    | [] => if rooted then [] else [seg]
  else seg :: st

/-- Join segments with `/`. -/
def joinSlash : List (List Char) → List Char
  | [] => []
  | [s] => s
  | s :: rest => s ++ '/' :: joinSlash rest

/-- Models Go `filepath.Clean` on POSIX: purely lexical removal of
empty, `.` and resolvable `..` segments; the empty path cleans to `.`. -/
def goClean (path : String) : String :=
  match path.data with
  | [] => "."
  | c :: rest =>
      let rooted := c = '/'
      let segs := splitSlash (if rooted then rest else c :: rest)
      let stack := (segs.foldl (cleanStep rooted) []).reverse
      let joined := joinSlash stack
      if rooted then String.mk ('/' :: joined)
      else if joined = [] then "." else String.mk joined

/-- Models `normalizePath`: `filepath.ToSlash(filepath.Clean(path))`;
`ToSlash` is the identity on POSIX, where the separator is already `/`. -/
def normalizePath (path : String) : String := goClean path

/-- Models `isValidMode`: the index's own allow-list of exactly three
mode strings (note `"040000"`, with a leading zero, unlike the object
model's `FileModeDir = "40000"`; no symlink mode). -/
def isValidMode (mode : String) : Bool :=
  mode == "100644" || mode == "100755" || mode == "040000"

/-- Go `index.IndexEntry`: five exported (persisted) fields and three
unexported bookkeeping fields. -/
structure IndexEntry where
  hash : String
  size : Int
  mode : String
  mtime : Time
  path : String
  ctime : Time
  validated : Bool
  stage : Int
  deriving DecidableEq, Repr

/-- Go `index.Index`, with the entry map as an association list with
unique keys. -/
structure Index where
  version : Int
  entries : List (String × IndexEntry)
  deriving DecidableEq, Repr

/-- Map assignment `m[k] = v`: replace an existing key, else append. -/
def mapInsert (m : List (String × IndexEntry)) (k : String) (v : IndexEntry) :
    List (String × IndexEntry) :=
  if m.any (fun p => p.1 = k) then
    m.map (fun p => if p.1 = k then (k, v) else p)
  else m ++ [(k, v)]

/-- Models `Index.Add`: validate path, hash, size and mode, normalize
the path, and upsert the entry (stamping `ctime := now`, `validated`,
`stage 0`). -/
def Index.Add (idx : Index) (path hash : String) (size : Int)
    (mode : String) (mtime now : Time) : Except String Index :=
  if path == "" then .error "path cannot be empty"
  else if hash == "" then .error "hash cannot be empty"
  else if size < 0 then .error "size cannot be negative"
  else if !isValidMode mode then .error "invalid file mode"
  else
    let np := normalizePath path
    .ok { idx with
          entries := mapInsert idx.entries np
            ⟨hash, size, mode, mtime, np, now, true, 0⟩ }

/-- Decode one persisted `IndexEntry` object (unexported bookkeeping
fields stay zero). -/
def decodeIndexEntry (v : Jval) : Except String IndexEntry :=
  match v with
  | .jobj fields => do
      let h ← getStrField fields "hash"
      let sz ← getIntField fields "size"
      let md ← getStrField fields "mode"
      let mt ← getTimeField fields "mtime"
      let p ← getStrField fields "path"
      pure ⟨h, sz, md, mt, p, Time.goZero, false, 0⟩
  | .jnull => .ok ⟨"", 0, "", Time.goZero, "", Time.goZero, false, 0⟩
  | _ => .error "cannot unmarshal into IndexEntry"

/-- Models `json.Unmarshal` of the persisted index document
`{version, entries}`. -/
def unmarshalIndexDoc (data : Bytes) :
    Except String (Int × List (String × IndexEntry)) :=
  match jsonParse data with
  | .error e => .error e
  | .ok (.jobj fields) => do
      let v ← getIntField fields "version"
      let es ←
        match jlookup fields "entries" with
        | none => .ok []
        | some .jnull => .ok []
        | some (.jobj kvs) =>
            kvs.mapM (fun kv => do
              let e ← decodeIndexEntry kv.2
              pure (bytesToStr kv.1, e))
        | some _ => .error "cannot unmarshal into entries map"
      pure (v, es)
  | .ok _ => .error "cannot unmarshal into index document"

/-- Models `Index.load` after the index file was read successfully with
contents `data`: an empty file or a file that fails to unmarshal resets
the in-memory entries to an empty map and reports no error; otherwise
the loaded version and entries replace the current ones. -/
def Index.load (idx : Index) (data : Bytes) : Except String Index :=
  if data.length = 0 then .ok { idx with entries := [] }
  else
    match unmarshalIndexDoc data with
    | .error _ => .ok { idx with entries := [] }
    | .ok (v, es) => .ok { idx with version := v, entries := es }

/-! ## Theorems for the specification claims -/

/-! ### Order lemmas for the tree-entry comparison -/

theorem charListLt_asymm :
    ∀ x y, charListLt x y = true → charListLt y x = false := by
  intro x
  induction x with
  | nil => intro y h; cases y <;> simp [charListLt] at h ⊢
  | cons a as ih =>
    intro y h
    cases y with
    | nil => simp [charListLt] at h
    | cons b bs =>
      by_cases hab : a.toNat < b.toNat
      · have hba : ¬ b.toNat < a.toNat := by omega
        simp [charListLt, hab, hba]
      · by_cases hba : b.toNat < a.toNat
        · simp [charListLt, hab, hba] at h
        · simp [charListLt, hab, hba] at h ⊢
          exact ih bs h

theorem charListLt_conv :
    ∀ x y, charListLt x y = false → charListLt y x = false → x = y := by
  intro x
  induction x with
  | nil => intro y _ h2; cases y <;> simp_all [charListLt]
  | cons a as ih =>
    intro y h1 h2
    cases y with
    | nil => simp [charListLt] at h2
    | cons b bs =>
      by_cases hab : a.toNat < b.toNat
      · simp [charListLt, hab] at h1
      · by_cases hba : b.toNat < a.toNat
        · simp [charListLt, hba] at h2
        · simp [charListLt, hab, hba] at h1 h2
          have heq : a = b := by
            have h3 : a.toNat = b.toNat := by omega
            apply Char.eq_of_val_eq
            apply UInt32.eq_of_val_eq
            apply Fin.eq_of_val_eq
            simpa [Char.toNat, UInt32.toNat] using h3
          rw [heq, ih bs h1 h2]

theorem charListLt_trans :
    ∀ x y z, charListLt x y = true → charListLt y z = true →
      charListLt x z = true := by
  intro x
  induction x with
  | nil =>
    intro y z hxy hyz
    cases y with
    | nil => simp [charListLt] at hxy
    | cons b bs => cases z with
      | nil => simp [charListLt] at hyz
      | cons c cs => simp [charListLt]
  | cons a as ih =>
    intro y z hxy hyz
    cases y with
    | nil => simp [charListLt] at hxy
    | cons b bs =>
      cases z with
      | nil => simp [charListLt] at hyz
      | cons c cs =>
        by_cases hab : a.toNat < b.toNat <;> by_cases hbc : b.toNat < c.toNat
        · have hac : a.toNat < c.toNat := by omega
          simp [charListLt, hac]
        · by_cases hcb : c.toNat < b.toNat
          · simp [charListLt, hbc, hcb] at hyz
          · have hac : a.toNat < c.toNat := by omega
            simp [charListLt, hac]
        · by_cases hba : b.toNat < a.toNat
          · simp [charListLt, hab, hba] at hxy
          · have hac : a.toNat < c.toNat := by omega
            simp [charListLt, hac]
        · by_cases hba : b.toNat < a.toNat
          · simp [charListLt, hab, hba] at hxy
          · by_cases hcb : c.toNat < b.toNat
            · simp [charListLt, hbc, hcb] at hyz
            · have hac1 : ¬ a.toNat < c.toNat := by omega
              have hac2 : ¬ c.toNat < a.toNat := by omega
              simp [charListLt, hab, hba] at hxy
              simp [charListLt, hbc, hcb] at hyz
              simp [charListLt, hac1, hac2]
              exact ih bs cs hxy hyz

theorem entryLE_total : IsTotal TreeEntry entryLE :=
  ⟨fun a b => by
    unfold entryLE
    cases hx : strLtB b.name a.name
    · exact .inl rfl
    · exact .inr (charListLt_asymm _ _ hx)⟩

theorem entryLE_trans : IsTrans TreeEntry entryLE :=
  ⟨fun a b c hab hbc => by
    unfold entryLE at *
    cases hca : strLtB c.name a.name
    · rfl
    · exfalso
      cases hbc2 : charListLt b.name.data c.name.data
      · have heq := charListLt_conv _ _ hbc2 hbc
        unfold strLtB at hca hab
        rw [heq] at hab
        rw [hab] at hca
        exact Bool.noConfusion hca
      · have := charListLt_trans _ _ _ hbc2 hca
        unfold strLtB at hab
        rw [this] at hab
        exact Bool.noConfusion hab⟩


/-- C8: `Serialize()` of a Blob built from the 5-byte content `hello`
is exactly `blob 5\0hello`, and the store's computed hash of those
bytes is the 64-character lowercase-hex SHA-256 digest of exactly that
byte string. -/
theorem c8_blob_hello_serialize_and_hash :
    (NewBlob (some (strB "hello"))).Serialize = .ok (strB "blob 5\x00hello")
    ∧ calculateHash (strB "blob 5\x00hello") = toHex (sha256 (strB "blob 5\x00hello"))
    ∧ calculateHash (strB "blob 5\x00hello")
        = "8aec4e4876f854f688d0ebfc8f37598f38e5fd6903cccc850ca36591175aeb60"
    ∧ (calculateHash (strB "blob 5\x00hello")).length = 64
    ∧ (calculateHash (strB "blob 5\x00hello")).data.all
        (fun c => c.isDigit || ('a' ≤ c && c ≤ 'f')) = true := by
  refine ⟨by decide, rfl, ?_, ?_, ?_⟩ <;> decide

/-- C10: a Blob built by `NewBlob(nil)` always fails to serialize (the
content is nil), while a Blob built from an empty non-nil slice
serializes to `blob 0` followed by a NUL byte. -/
theorem c10_nil_blob_vs_empty_blob :
    (NewBlob none).Serialize = .error "blob content is nil"
    ∧ (NewBlob (some [])).Serialize = .ok (strB "blob 0" ++ [0]) := by
  decide

/-- C3 counterexample: the object model's directory mode constant is
`40000`, not `040000`; `040000` is not a recognized mode of the object
model's validator (the index's separate allow-list does accept it). -/
theorem c3_dir_mode_counterexample :
    FileModeDir = "40000"
    ∧ FileModeDir ≠ "040000"
    ∧ FileMode.Validate "040000" = .error "invalid file mode"
    ∧ isValidMode "040000" = true := by
  decide

/-- C3 amended: the object model's recognized mode codes are exactly
`100644`, `100755`, `40000` (directory, no leading zero) and `120000`,
while the index's `isValidMode` accepts exactly `100644`, `100755` and
`040000`. -/
theorem c3_mode_codes_amended (m : String) :
    ((FileMode.Validate m = .ok ())
       ↔ (m = "100644" ∨ m = "100755" ∨ m = "40000" ∨ m = "120000"))
    ∧ ((isValidMode m = true)
       ↔ (m = "100644" ∨ m = "100755" ∨ m = "040000")) := by
  constructor
  · unfold FileMode.Validate FileModeRegular FileModeExec FileModeDir FileModeSymlink
    split <;> rename_i hc <;> simp_all
    tauto
  · unfold isValidMode
    simp only [Bool.or_eq_true, beq_iff_eq]
    tauto

/-- C5: whenever the digest recomputed over the decompressed bytes
differs from the requested hash, `ReadObject` returns an error and
never an object built from the altered data. -/
theorem c5_integrity_mismatch_fails (h : Hash) (data : Bytes) (o : Obj)
    (hne : calculateHash data ≠ h) : readObjectData h data ≠ .ok o := by
  unfold readObjectData
  split_ifs <;> simp_all

/-- C5 witness: the empty byte string does not hash to `00`, and
reading hash `00` over it fails. -/
theorem c5_integrity_mismatch_fails_witness :
    calculateHash [] ≠ "00"
    ∧ readObjectData "00" [] ≠ .ok (.blob (NewBlob (some []))) :=
  ⟨by decide, c5_integrity_mismatch_fails "00" [] (.blob (NewBlob (some []))) (by decide)⟩

/-- C7: when the persisted index document exists but fails to
unmarshal, `load` succeeds and leaves an empty in-memory entry map
instead of returning the parse error. -/
theorem c7_corrupt_index_loads_empty (idx : Index) (data : Bytes) (e : String)
    (he : unmarshalIndexDoc data = .error e) :
    Index.load idx data = .ok { idx with entries := [] } := by
  unfold Index.load
  split_ifs
  · rfl
  · rw [he]

/-- C7 witness: the repository's own corrupt-index test fixture fails
to unmarshal, and loading it yields an empty index without error. -/
theorem c7_corrupt_index_loads_empty_witness :
    unmarshalIndexDoc (strB "\x7b\"version\": 1, \"entries\": \x7b \"test\": \x7b ")
      = .error "expected string key in JSON object"
    ∧ Index.load ⟨1, []⟩ (strB "\x7b\"version\": 1, \"entries\": \x7b \"test\": \x7b ")
      = .ok ⟨1, []⟩ :=
  ⟨by decide,
   c7_corrupt_index_loads_empty ⟨1, []⟩ _ "expected string key in JSON object" (by decide)⟩

set_option maxRecDepth 100000 in
/-- C1: the round-trip fails for trees.  A tree with the two entries
`a` and `b` serializes its entries as empty JSON objects (Go marshals
no unexported fields), so `ReadObject(WriteObject(t))` succeeds but
returns a tree with a single zero-valued entry whose `Serialize` output
(`tree 30\0…[\x7b\x7d]…`) differs from the original bytes
(`tree 33\0…[\x7b\x7d,\x7b\x7d]…`); only the kind is preserved. -/
theorem c1_tree_roundtrip_divergence :
    writeObject (.tree ((NewTree.AddEntry ⟨"100644", "a", "h1", "blob"⟩).AddEntry
        ⟨"100644", "b", "h2", "blob"⟩))
      = .ok ("6ae9efcc1d984fafe72d2beff873ca7e09df37f60e39e3e9c76f68aa420faa59",
             strB "tree 33\x00\x7b\"type\":\"tree\",\"entries\":[\x7b\x7d,\x7b\x7d]\x7d")
    ∧ readObjectData "6ae9efcc1d984fafe72d2beff873ca7e09df37f60e39e3e9c76f68aa420faa59"
        (strB "tree 33\x00\x7b\"type\":\"tree\",\"entries\":[\x7b\x7d,\x7b\x7d]\x7d")
      = .ok (.tree ⟨[⟨"", "", "", ""⟩],
             "6ae9efcc1d984fafe72d2beff873ca7e09df37f60e39e3e9c76f68aa420faa59"⟩)
    ∧ Obj.Serialize (.tree ⟨[⟨"", "", "", ""⟩],
             "6ae9efcc1d984fafe72d2beff873ca7e09df37f60e39e3e9c76f68aa420faa59"⟩)
      = .ok (strB "tree 30\x00\x7b\"type\":\"tree\",\"entries\":[\x7b\x7d]\x7d")
    ∧ strB "tree 30\x00\x7b\"type\":\"tree\",\"entries\":[\x7b\x7d]\x7d"
      ≠ strB "tree 33\x00\x7b\"type\":\"tree\",\"entries\":[\x7b\x7d,\x7b\x7d]\x7d"
    ∧ Obj.Type (.tree ⟨[⟨"", "", "", ""⟩],
             "6ae9efcc1d984fafe72d2beff873ca7e09df37f60e39e3e9c76f68aa420faa59"⟩)
      = TreeObject := by
  decide

set_option maxRecDepth 100000 in
/-- C2 counterexample: a valid commit whose author time is Unix second
100 and whose committer time is Unix second 200 serializes to bytes
that contain the committer's own `when` field
(`…1970-01-01T00:03:20Z…`), and `DeserializeCommit` restores the
committer's timestamp as 200 — the committer's own persisted value, not
the author's 100 — contradicting the claim on both counts. -/
theorem c2_committer_timestamp_counterexample :
    NewCommit "t1" [] ⟨"A", "a@x", ⟨100⟩⟩ ⟨"B", "b@x", ⟨200⟩⟩ "m"
      = .ok ⟨"t1", [], ⟨"A", "a@x", ⟨100⟩⟩, ⟨"B", "b@x", ⟨200⟩⟩, "m", ""⟩
    ∧ Commit.Serialize ⟨"t1", [], ⟨"A", "a@x", ⟨100⟩⟩, ⟨"B", "b@x", ⟨200⟩⟩, "m", ""⟩
      = .ok (strB ("commit 194\x00\x7b\"type\":\"commit\",\"tree\":\"t1\"," ++
          "\"author\":\x7b\"name\":\"A\",\"email\":\"a@x\",\"when\":\"1970-01-01T00:01:40Z\"\x7d," ++
          "\"committer\":\x7b\"name\":\"B\",\"email\":\"b@x\",\"when\":\"1970-01-01T00:03:20Z\"\x7d," ++
          "\"message\":\"m\",\"timestamp\":100\x7d"))
    ∧ DeserializeCommit (strB ("commit 194\x00\x7b\"type\":\"commit\",\"tree\":\"t1\"," ++
          "\"author\":\x7b\"name\":\"A\",\"email\":\"a@x\",\"when\":\"1970-01-01T00:01:40Z\"\x7d," ++
          "\"committer\":\x7b\"name\":\"B\",\"email\":\"b@x\",\"when\":\"1970-01-01T00:03:20Z\"\x7d," ++
          "\"message\":\"m\",\"timestamp\":100\x7d"))
      = .ok ⟨"t1", [], ⟨"A", "a@x", ⟨100⟩⟩, ⟨"B", "b@x", ⟨200⟩⟩, "m", ""⟩
    ∧ (⟨200⟩ : Time) ≠ ⟨100⟩ := by
  decide

set_option maxRecDepth 100000 in
/-- C4: on POSIX path semantics, `\` is not a separator, so
`Add("a\\b.txt")` keys its own entry `a\b.txt`: the three adds leave
two entries, not one — diverging from the claim and from the
repository's own `TestIndexEdgeCases` path-normalization test. -/
theorem c4_backslash_path_divergence :
    ((((⟨1, []⟩ : Index).Add "a/b.txt" "h" 1 "100644" ⟨0⟩ ⟨0⟩).bind
        (fun i => i.Add "a\\b.txt" "h" 1 "100644" ⟨0⟩ ⟨0⟩)).bind
        (fun i => i.Add "./a/b.txt" "h" 1 "100644" ⟨0⟩ ⟨0⟩)).map
        (fun i => i.entries.map Prod.fst)
      = .ok ["a/b.txt", "a\\b.txt"]
    ∧ normalizePath "a\\b.txt" = "a\\b.txt"
    ∧ normalizePath "a\\b.txt" ≠ "a/b.txt"
    ∧ normalizePath "a/b.txt" = "a/b.txt"
    ∧ normalizePath "./a/b.txt" = "a/b.txt" := by
  decide

/-! ### Lemmas for the tree invariant (C6) -/

theorem sortEntries_perm (l : List TreeEntry) : List.Perm (Tree.sortEntries l) l :=
  List.perm_insertionSort entryLE l

theorem sortEntries_sorted (l : List TreeEntry) :
    (Tree.sortEntries l).Sorted entryLE := by
  haveI := entryLE_total
  haveI := entryLE_trans
  exact List.sorted_insertionSort entryLE l

theorem replaceByName_names :
    ∀ (l : List TreeEntry) (e : TreeEntry) (l' : List TreeEntry),
      replaceByName l e = some l' →
      l'.map (fun x => x.name) = l.map (fun x => x.name) := by
  intro l
  induction l with
  | nil => intro e l' h; simp [replaceByName] at h
  | cons x xs ih =>
    intro e l' h
    by_cases hx : x.name = e.name
    · simp [replaceByName, hx] at h
      subst h
      simp [hx]
    · simp [replaceByName, hx] at h
      obtain ⟨l'', hl'', rfl⟩ := h
      simp [ih e l'' hl'']

theorem replaceByName_none :
    ∀ (l : List TreeEntry) (e : TreeEntry),
      replaceByName l e = none ↔ ∀ x ∈ l, x.name ≠ e.name := by
  intro l
  induction l with
  | nil => intro e; simp [replaceByName]
  | cons x xs ih =>
    intro e
    by_cases hx : x.name = e.name
    · simp [replaceByName, hx]
    · simp [replaceByName, hx, ih e]

theorem replaceByName_mem :
    ∀ (l : List TreeEntry) (e : TreeEntry) (l' : List TreeEntry),
      replaceByName l e = some l' → e ∈ l' := by
  intro l
  induction l with
  | nil => intro e l' h; simp [replaceByName] at h
  | cons x xs ih =>
    intro e l' h
    by_cases hx : x.name = e.name
    · simp [replaceByName, hx] at h
      subst h
      exact List.mem_cons_self e xs
    · simp [replaceByName, hx] at h
      obtain ⟨l'', hl'', rfl⟩ := h
      exact List.mem_cons_of_mem x (ih e l'' hl'')

theorem replaceByName_mem_other :
    ∀ (l : List TreeEntry) (e : TreeEntry) (l' : List TreeEntry),
      replaceByName l e = some l' →
      ∀ x ∈ l, x.name ≠ e.name → x ∈ l' := by
  intro l
  induction l with
  | nil => intro e l' h; simp [replaceByName] at h
  | cons y ys ih =>
    intro e l' h x hx hne
    by_cases hy : y.name = e.name
    · simp [replaceByName, hy] at h
      subst h
      rcases List.mem_cons.mp hx with rfl | hmem
      · exact absurd hy hne
      · exact List.mem_cons_of_mem e hmem
    · simp [replaceByName, hy] at h
      obtain ⟨l'', hl'', rfl⟩ := h
      rcases List.mem_cons.mp hx with rfl | hmem
      · exact List.mem_cons_self x l''
      · exact List.mem_cons_of_mem y (ih e l'' hl'' x hmem hne)

theorem replaceByName_isSome :
    ∀ (l : List TreeEntry) (e : TreeEntry),
      (∃ x ∈ l, x.name = e.name) → ∃ l', replaceByName l e = some l' := by
  intro l
  induction l with
  | nil => intro e h; simp at h
  | cons y ys ih =>
    intro e h
    by_cases hy : y.name = e.name
    · exact ⟨e :: ys, by simp [replaceByName, hy]⟩
    · obtain ⟨x, hx, hxe⟩ := h
      rcases List.mem_cons.mp hx with rfl | hmem
      · exact absurd hxe hy
      · obtain ⟨l'', hl''⟩ := ih e ⟨x, hmem, hxe⟩
        exact ⟨y :: l'', by simp [replaceByName, hy, hl'']⟩

theorem addEntry_entries_of_some (t : Tree) (e : TreeEntry)
    (l' : List TreeEntry) (h : replaceByName t.entries e = some l') :
    (t.AddEntry e).entries = Tree.sortEntries l' := by
  unfold Tree.AddEntry
  rw [h]

theorem addEntry_nodup (t : Tree) (e : TreeEntry)
    (h : (t.entries.map (fun x => x.name)).Nodup) :
    ((t.AddEntry e).entries.map (fun x => x.name)).Nodup := by
  unfold Tree.AddEntry
  cases hr : replaceByName t.entries e with
  | some l' =>
    simp only
    have hperm := (sortEntries_perm l').map (fun x => x.name)
    refine hperm.nodup_iff.mpr ?_
    rw [replaceByName_names _ _ _ hr]
    exact h
  | none =>
    simp only
    have hnot := (replaceByName_none t.entries e).mp hr
    have hperm := (sortEntries_perm (t.entries ++ [e])).map (fun x => x.name)
    refine hperm.nodup_iff.mpr ?_
    rw [List.map_append]
    refine List.Nodup.append h (List.nodup_singleton _) ?_
    intro a ha hb
    simp at hb
    obtain ⟨x, hx, rfl⟩ := List.mem_map.mp ha
    exact hnot x hx hb

theorem addEntry_sorted (t : Tree) (e : TreeEntry) :
    (t.AddEntry e).entries.Sorted entryLE := by
  unfold Tree.AddEntry
  cases replaceByName t.entries e <;> exact sortEntries_sorted _

theorem foldl_addEntry_nodup :
    ∀ (ops : List TreeEntry) (t : Tree),
      (t.entries.map (fun x => x.name)).Nodup →
      ((ops.foldl Tree.AddEntry t).entries.map (fun x => x.name)).Nodup := by
  intro ops
  induction ops with
  | nil => intro t h; exact h
  | cons a as ih => intro t h; exact ih (t.AddEntry a) (addEntry_nodup t a h)

theorem foldl_addEntry_sorted :
    ∀ (ops : List TreeEntry) (t : Tree),
      t.entries.Sorted entryLE →
      ((ops.foldl Tree.AddEntry t).entries).Sorted entryLE := by
  intro ops
  induction ops with
  | nil => intro t h; exact h
  | cons a as ih => intro t _; exact ih (t.AddEntry a) (addEntry_sorted t a)

theorem strict_of_le_of_ne {a b : TreeEntry}
    (hle : entryLE a b) (hne : a.name ≠ b.name) :
    strLtB a.name b.name = true := by
  cases hx : strLtB a.name b.name
  · exfalso
    apply hne
    have hdata : a.name.data = b.name.data := charListLt_conv _ _ hx hle
    exact congrArg String.mk hdata
  · rfl

/-- C6: starting from a fresh tree, any sequence of `AddEntry` calls
leaves the entry list strictly sorted ascending by name (Go string
order, hence also name-unique), and an `AddEntry` whose name already
occurs replaces that entry in place: the count is unchanged, the new
entry is present, and every entry with a different name survives. -/
theorem c6_tree_addEntry_invariant (ops : List TreeEntry) (e : TreeEntry) :
    (ops.foldl Tree.AddEntry NewTree).entries.Pairwise
      (fun a b => strLtB a.name b.name = true)
    ∧ ((∃ x ∈ (ops.foldl Tree.AddEntry NewTree).entries, x.name = e.name) →
        (((ops.foldl Tree.AddEntry NewTree).AddEntry e).entries.length
           = (ops.foldl Tree.AddEntry NewTree).entries.length
         ∧ e ∈ ((ops.foldl Tree.AddEntry NewTree).AddEntry e).entries
         ∧ ∀ x ∈ (ops.foldl Tree.AddEntry NewTree).entries, x.name ≠ e.name →
             x ∈ ((ops.foldl Tree.AddEntry NewTree).AddEntry e).entries)) := by
  have hnodup := foldl_addEntry_nodup ops NewTree (by simp [NewTree])
  have hsorted := foldl_addEntry_sorted ops NewTree (by simp [NewTree, List.Sorted])
  constructor
  · have hne : (ops.foldl Tree.AddEntry NewTree).entries.Pairwise
        (fun a b => a.name ≠ b.name) := List.pairwise_map.mp hnodup
    exact (hsorted.and hne).imp (fun h => strict_of_le_of_ne h.1 h.2)
  · intro hex
    obtain ⟨l', hl'⟩ := replaceByName_isSome _ e hex
    have hadd := addEntry_entries_of_some _ e l' hl'
    refine ⟨?_, ?_, ?_⟩
    · rw [hadd]
      have h1 := (sortEntries_perm l').length_eq
      have h2 : l'.length = (ops.foldl Tree.AddEntry NewTree).entries.length := by
        have := congrArg List.length (replaceByName_names _ _ _ hl')
        simpa using this
      omega
    · rw [hadd]
      exact ((sortEntries_perm l').mem_iff).mpr (replaceByName_mem _ _ _ hl')
    · intro x hx hne
      rw [hadd]
      exact ((sortEntries_perm l').mem_iff).mpr
        (replaceByName_mem_other _ _ _ hl' x hx hne)

/-- C6 witness: adding `b`, then `a`, then a new entry named `b`
replaces in place with the count unchanged, on a tree whose entries are
strictly sorted. -/
theorem c6_tree_addEntry_invariant_witness :
    ([⟨"100644", "b", "h2", "blob"⟩, ⟨"100644", "a", "h1", "blob"⟩].foldl
        Tree.AddEntry NewTree).entries.Pairwise
      (fun a b => strLtB a.name b.name = true)
    ∧ (((([⟨"100644", "b", "h2", "blob"⟩, ⟨"100644", "a", "h1", "blob"⟩].foldl
          Tree.AddEntry NewTree)).AddEntry ⟨"100755", "b", "h9", "blob"⟩).entries.length
        = ([⟨"100644", "b", "h2", "blob"⟩, ⟨"100644", "a", "h1", "blob"⟩].foldl
            Tree.AddEntry NewTree).entries.length) := by
  have h := c6_tree_addEntry_invariant
    [⟨"100644", "b", "h2", "blob"⟩, ⟨"100644", "a", "h1", "blob"⟩]
    ⟨"100755", "b", "h9", "blob"⟩
  exact ⟨h.1, (h.2 (by decide)).1⟩

/-! ### Lemmas for the commit signature flow (C2) -/

theorem NewSignature_ok (n em : String) (w : Time) (s : Signature)
    (h : NewSignature n em w = .ok s) : s = ⟨n, em, w⟩ := by
  unfold NewSignature at h
  split_ifs at h
  injection h with h'
  exact h'.symm

theorem NewCommit_ok (tr : Hash) (ps : List Hash) (a co : Signature)
    (msg : String) (c : Commit)
    (h : NewCommit tr ps a co msg = .ok c) :
    c = ⟨tr, ps, a, co, goTrimSpace msg, ""⟩ := by
  unfold NewCommit at h
  split at h
  · simp at h
  · split at h
    · simp at h
    · split at h
      · simp at h
      · split at h
        · simp at h
        · injection h with h'
          exact h'.symm

/-- C2 amended: `Commit.Serialize` persists the committer's own
timestamp — the serialized bytes contain the committer's `when` field,
rendered from `c.committer.when` — and `DeserializeCommit` reconstructs
each signature's timestamp from that signature's own persisted `when`
value in the decoded payload (the redundant author-derived `timestamp`
field is not used), not from the author's timestamp. -/
theorem c2_commit_timestamps_amended :
    (∀ c : Commit, ∃ pre post,
       Commit.Serialize c
         = .ok (pre ++ (strB "\"when\":" ++ [34] ++
                strB (rfc3339 c.committer.when) ++ [34]) ++ post))
    ∧ (∀ (data : Bytes) (c' : Commit), DeserializeCommit data = .ok c' →
        ∃ cj, decodeCommitPayload data = .ok cj
          ∧ c'.committer.when = cj.committer.when
          ∧ c'.author.when = cj.author.when) := by
  constructor
  · intro c
    refine ⟨objHeader "commit" (encodeCommitJSON (commitJSONof c)).length ++
        ([123] ++ strB "\"type\":" ++ jsonStr CommitObject ++ [44] ++
         strB "\"tree\":" ++ jsonStr c.tree ++
         (if c.parents.isEmpty then []
          else [44] ++ strB "\"parents\":" ++ jsonArr (c.parents.map jsonStr)) ++
         [44] ++ strB "\"author\":" ++ encodeSignatureJSON (toJSONSignature c.author) ++
         [44] ++ strB "\"committer\":" ++
         ([123] ++ strB "\"name\":" ++ jsonStr c.committer.name ++ [44] ++
          strB "\"email\":" ++ jsonStr c.committer.email ++ [44])),
      [125] ++ ([44] ++ strB "\"message\":" ++ jsonStr c.message ++
       [44] ++ strB "\"timestamp\":" ++ intB c.author.when.unix ++ [125]), ?_⟩
    simp [Commit.Serialize, encodeCommitJSON, commitJSONof, encodeSignatureJSON,
          toJSONSignature, List.append_assoc]
  · intro data c' h
    unfold DeserializeCommit at h
    cases hdec : decodeCommitPayload data with
    | error e => rw [hdec] at h; simp at h
    | ok cj =>
      rw [hdec] at h
      refine ⟨cj, rfl, ?_⟩
      split at h
      · rename_i e2 heq2
        simp at heq2
      · rename_i cj2 heq2
        injection heq2 with heq2'
        subst heq2'
        split at h
        · simp at h
        · cases hau : fromJSONSignature cj.author with
          | error e => rw [hau] at h; simp at h
          | ok a =>
            rw [hau] at h
            cases hco : fromJSONSignature cj.committer with
            | error e => rw [hco] at h; simp at h
            | ok co =>
              rw [hco] at h
              unfold fromJSONSignature at hau hco
              have ha := NewSignature_ok _ _ _ _ hau
              have hc := NewSignature_ok _ _ _ _ hco
              have hcommit := NewCommit_ok _ _ _ _ _ _ h
              rw [hcommit, ha, hc]
              exact ⟨rfl, rfl⟩

set_option maxRecDepth 100000 in
/-- C2 amended witness: for the concrete serialized commit of the
counterexample, deserialization succeeds and both reconstructed
timestamps equal the corresponding persisted `when` values. -/
theorem c2_commit_timestamps_amended_witness :
    ∃ cj, decodeCommitPayload (strB ("commit 194\x00\x7b\"type\":\"commit\",\"tree\":\"t1\"," ++
          "\"author\":\x7b\"name\":\"A\",\"email\":\"a@x\",\"when\":\"1970-01-01T00:01:40Z\"\x7d," ++
          "\"committer\":\x7b\"name\":\"B\",\"email\":\"b@x\",\"when\":\"1970-01-01T00:03:20Z\"\x7d," ++
          "\"message\":\"m\",\"timestamp\":100\x7d")) = .ok cj
      ∧ (⟨"t1", [], ⟨"A", "a@x", ⟨100⟩⟩, ⟨"B", "b@x", ⟨200⟩⟩, "m", ""⟩ : Commit).committer.when
          = cj.committer.when
      ∧ (⟨"t1", [], ⟨"A", "a@x", ⟨100⟩⟩, ⟨"B", "b@x", ⟨200⟩⟩, "m", ""⟩ : Commit).author.when
          = cj.author.when :=
  c2_commit_timestamps_amended.2 _ _ (by decide)

/-- C9: the serialized form of a Tag does not depend on the tagger at
all — the `tagger` field marshals as the empty JSON object `\x7b\x7d`
(Go `Signature` has no exported fields) — so two tags differing only in
tagger serialize to identical bytes. -/
theorem c9_tagger_not_persisted (t : Tag) (s : Signature) :
    Tag.Serialize { t with tagger := s } = Tag.Serialize t
    ∧ ∃ pre post,
        Tag.Serialize t = .ok (pre ++ (strB "\"tagger\":" ++ [123, 125]) ++ post) := by
  refine ⟨rfl, ?_⟩
  refine ⟨objHeader "tag" (tagPayload t).length ++
      ([123] ++ strB "\"type\":" ++ jsonStr "tag" ++ [44] ++
       strB "\"object\":" ++ jsonStr t.object ++ [44] ++
       strB "\"objType\":" ++ jsonStr t.objType ++ [44] ++
       strB "\"tag\":" ++ jsonStr t.tagName ++ [44]),
    [44] ++ strB "\"message\":" ++ jsonStr t.message ++ [125], ?_⟩
  simp [Tag.Serialize, tagPayload, encodeSignatureGo, List.append_assoc]

end Sib
